import Mathlib

/-!
Verification of the GBD benchmark-database core against its specification.

This file gives a shallow embedding of the federated feature-store engine of
`src/gbd_tool/db.py` and of the degree-sequence fingerprint of
`src/gbd_tool/init.py`, and proves the specified properties about it.
Tables are modelled as association lists of rows in insertion order; the
embedded SQLite engine's behaviour (UNIQUE constraints, `INSERT OR IGNORE`,
`REPLACE`, `CREATE TABLE IF NOT EXISTS`, `ALTER TABLE ADD`) is made explicit
in the operation definitions, with the source lines referenced in each
doc comment.
-/

namespace GBD

/-- Typed errors surfaced by the embedded database operations
(`sqlite3.IntegrityError` for constraint violations, duplicate-column and
malformed-statement `sqlite3.OperationalError`s, and the tool's own
`DatabaseException` for a tabular import without a `hash` column). -/
inductive DBError where
  | duplicateValue
  | duplicateColumn
  | missingHashColumn
  | operationalError
  deriving DecidableEq, Repr

/-! ### Store-file validation and start-up dispatch (`db.py` lines 42–50, 67–73) -/

/-- The 16 leading bytes of a valid SQLite 3 store file: the byte values of
`b'SQLite format 3\x00'` compared at `db.py` line 73. -/
def sqliteSignature : List Nat :=
  [83, 81, 76, 105, 116, 101, 32, 102, 111, 114, 109, 97, 116, 32, 51, 0]

/-- Embedding of `Database.is_database` (`db.py` lines 67–73).  The file is its
byte content; the `os.path.isfile` guard is handled by `startup_action` below.
A zero-byte file is accepted, a file under 100 bytes is rejected, otherwise the
first 16 of the 100 header bytes are compared against the format signature. -/
def is_database (file : List Nat) : Bool :=
  if file.length = 0 then true
  else if file.length < 100 then false
  else
    let header := file.take 100
    header.take 16 == sqliteSignature

/-- Outcome of the start-up dispatch over one configured path. -/
inductive StartupAction where
  | createNew
  | attachStore
  | importTabular
  deriving DecidableEq, Repr

/-- Embedding of the per-path dispatch of `Database.__init__` (`db.py` lines
42–50): a missing file is created as a fresh store, a file passing
`is_database` is checked and attached, anything else goes to `import_csv`. -/
def startup_action (fileOnDisk : Bool) (file : List Nat) : StartupAction :=
  if !fileOnDisk then .createNew
  else if is_database file then .attachStore
  else .importTabular

/-! ### Tabular import (`db.py` lines 75–87) -/

/-- Modelled from the spec: `make_alnum_ul` (from the missing `gbd_tool/util.py`)
produces the "alphanumeric-normalized form of the file name"; every character
that is not alphanumeric becomes an underscore. -/
def make_alnum_ul (s : String) : String :=
  String.map (fun c => if c.isAlphanum then c else '_') s

/-- Modelled from the spec: the import table name is a "context-prefixed,
alphanumeric-normalized form of the file name" (`db.py` line 77 formats
`context_from_name(file)` and `make_alnum_ul(file)` with an underscore;
`context_from_name` lives in the missing `gbd_tool/util.py`, and benchmark
instance files carry the default context label `cnf`). -/
def import_table_name (file : String) : String :=
  "cnf_" ++ make_alnum_ul file

/-- A parsed tabular file: the header row and the data rows. -/
structure CSVFile where
  fieldnames : List String
  rows : List (List String)
  deriving DecidableEq, Repr

/-- The shared in-memory store: the `sqlite_master` table names together with
each table's contents. -/
structure MemStore where
  tables : List (String × List (List String))
  deriving DecidableEq, Repr

/-- Embedding of `Database.import_csv` (`db.py` lines 75–87): when a table of
the name derived from the file already exists in the shared in-memory store the
call returns at once without opening the file; otherwise the header must
contain a `hash` column or the import fails, and on success a fresh table with
the file's rows is created. -/
def import_csv (store : MemStore) (file : String) (content : CSVFile) :
    Except DBError MemStore :=
  let name := import_table_name file
  if (store.tables.map Prod.fst).contains name then
    .ok store
  else if !(content.fieldnames.contains "hash") then
    .error .missingHashColumn
  else
    .ok { tables := store.tables ++ [(name, content.rows)] }

/-! ### Dedicated feature tables and `Database.insert` (`db.py` lines 198–202) -/

/-- A dedicated feature table: `(hash, value)` rows in insertion order, with a
`UNIQUE(hash, value)` constraint (`db.py` line 180). -/
abbrev FTable := List (String × String)

/-- Row-by-row plain `INSERT` into a table with `UNIQUE(hash, value)`: SQLite's
default `ABORT` conflict resolution fails the whole statement (the caller keeps
the original table) as soon as an inserted row equals an existing one or one
inserted earlier in the same statement. -/
def insert_rows : FTable → List (String × String) → Except DBError FTable
  | t, [] => .ok t
  | t, r :: rs =>
      if t.contains r then .error .duplicateValue
      else insert_rows (t ++ [r]) rs

/-- Row-by-row `REPLACE` into a table with `UNIQUE(hash, value)`: the
conflicting row (the identical pair, if present) is deleted and the new row is
appended. -/
def replace_rows_unique_pair : FTable → List (String × String) → FTable
  | t, [] => t
  | t, r :: rs => replace_rows_unique_pair (t.filter (fun q => !(q == r)) ++ [r]) rs

/-- Python truthiness of the feature's optional default value, as tested by
`force and info['default']` at `db.py` line 201 (`None` and the empty string
are falsy). -/
def py_truthy : Option String → Bool
  | none => false
  | some s => !s.isEmpty

/-- Embedding of `Database.insert` (`db.py` lines 198–202) for a feature backed
by a dedicated table: the row list is built from the hashes and the single
value (line 200), and the method is `REPLACE` exactly when `force` is set and
the default is truthy (line 201), otherwise a plain `INSERT`. -/
def db_insert (default : Option String) (value : String) (hashes : List String)
    (force : Bool) (t : FTable) : Except DBError FTable :=
  let rows := hashes.map (fun h => (h, value))
  if force && py_truthy default then .ok (replace_rows_unique_pair t rows)
  else insert_rows t rows

/-- Query used by the spec's multi-valued invariant: the identities holding a
given value in a dedicated feature table (`SELECT hash FROM t WHERE value = v`). -/
def query_value (t : FTable) (v : String) : List String :=
  (t.filter (fun r => r.2 == v)).map Prod.fst

/-! ### Registry-column features and `Database.delete_hashes` / `delete_values`
    (`db.py` lines 204–216) -/

/-- Projection of a per-context registry table `features` onto one feature
column: `(hash, columnValue)` rows, where `hash` is `UNIQUE NOT NULL`
(`db.py` line 165). -/
abbrev RegTable := List (String × String)

/-- Row-by-row `REPLACE INTO features (hash, col)` where the conflict target is
the `UNIQUE` hash column: any row with the same hash is deleted and the new row
is appended. -/
def replace_rows_unique_hash : RegTable → List (String × String) → RegTable
  | t, [] => t
  | t, r :: rs =>
      replace_rows_unique_hash (t.filter (fun q => !(q.1 == r.1)) ++ [r]) rs

/-- Row-by-row plain `INSERT` into the registry table: conflicts when the hash
already exists. -/
def insert_rows_unique_hash : RegTable → List (String × String) → Except DBError RegTable
  | t, [] => .ok t
  | t, r :: rs =>
      if (t.map Prod.fst).contains r.1 then .error .duplicateValue
      else insert_rows_unique_hash (t ++ [r]) rs

/-- Embedding of `Database.insert` (`db.py` lines 198–202) for a feature stored
as a column of the registry table (a feature with a default). -/
def db_insert_registry (default : Option String) (value : String)
    (hashes : List String) (force : Bool) (t : RegTable) : Except DBError RegTable :=
  let rows := hashes.map (fun h => (h, value))
  if force && py_truthy default then .ok (replace_rows_unique_hash t rows)
  else insert_rows_unique_hash t rows

/-- Embedding of `Database.delete_hashes` (`db.py` lines 204–209) for a feature
whose default is `None`: `DELETE FROM {feature} WHERE hash IN (...)`. -/
def delete_hashes_nodefault (t : FTable) (hashes : List String) : FTable :=
  t.filter (fun r => !(hashes.contains r.1))

/-- Embedding of `Database.delete_hashes` (`db.py` lines 204–209) for a feature
with default `d`: line 209 calls `self.insert(feature, default, hashes, True)`. -/
def delete_hashes_default (d : String) (hashes : List String) (t : RegTable) :
    Except DBError RegTable :=
  db_insert_registry (some d) d hashes true t

/-- Embedding of `Database.delete_values` (`db.py` lines 211–216) for a feature
whose default is `None`: `DELETE FROM {feature} WHERE value IN (...)`. -/
def delete_values_nodefault (t : FTable) (values : List String) : FTable :=
  t.filter (fun r => !(values.contains r.2))

/-- The statement text built by `Database.delete_values` (`db.py` line 216) for
a feature with a default, reproducing the source's format string
`"UPDATE TABLE {} SET {} = {} WHERE value IN ('{}')"` verbatim. -/
def delete_values_default_stmt (tbl col dflt : String) (values : List String) : String :=
  "UPDATE TABLE " ++ tbl ++ " SET " ++ col ++ " = " ++ dflt ++
    " WHERE value IN ('" ++ String.intercalate "', '" values ++ "')"

/-- A few of SQLite's reserved keywords: none of these can serve as an unquoted
table name in a statement. -/
def sqliteReservedKeywords : List String :=
  ["ADD", "ALTER", "CREATE", "DELETE", "DROP", "FROM", "INSERT", "SELECT",
   "SET", "TABLE", "UPDATE", "WHERE"]

/-- Splits a character list into space-separated tokens (accumulator holds the
current token reversed). -/
def space_tokens_aux : List Char → List Char → List String
  | [], acc => [String.mk acc.reverse]
  | c :: cs, acc =>
      if c = ' ' then String.mk acc.reverse :: space_tokens_aux cs []
      else space_tokens_aux cs (c :: acc)

/-- Splits a statement into its space-separated tokens. -/
def space_tokens (s : String) : List String := space_tokens_aux s.toList []

/-- Minimal well-formedness check of an `UPDATE` statement against SQLite's
grammar: the keyword `UPDATE` must be followed by the target table name, which
as an unquoted identifier cannot be a reserved keyword. -/
def update_stmt_wellformed (stmt : String) : Bool :=
  match space_tokens stmt with
  | "UPDATE" :: target :: _ => !(sqliteReservedKeywords.contains target)
  | _ => false

/-! ### `Database.create_feature` (`db.py` lines 175–180) -/

/-- Database schema state relevant to `create_feature`: the names of the
dedicated feature tables, and the columns of the per-context registry table
`features` (in creation order). -/
structure Schema where
  dedicatedTables : List String
  registryColumns : List String
  deriving DecidableEq, Repr

/-- Embedding of `Database.create_feature` (`db.py` lines 175–180).  With a
default value, line 178 runs `ALTER TABLE features ADD {name} TEXT NOT NULL
DEFAULT {v}`, which SQLite rejects with a duplicate-column error when a column
of that name already exists; without one, line 180 runs `CREATE TABLE IF NOT
EXISTS {name} (hash, value, UNIQUE(hash, value))`, a no-op when the table
already exists. -/
def create_feature (s : Schema) (name : String) (default : Option String) :
    Except DBError Schema :=
  match default with
  | some _ =>
      if s.registryColumns.contains name then .error .duplicateColumn
      else .ok { s with registryColumns := s.registryColumns ++ [name] }
  | none =>
      if s.dedicatedTables.contains name then .ok s
      else .ok { s with dedicatedTables := s.dedicatedTables ++ [name] }

/-! ### Context scaffold and the identity-registry trigger
    (`db.py` lines 151–167) -/

/-- State of one context inside a store: the `local` table's `(hash, value)`
rows and the `features` registry's hash column (which is `UNIQUE NOT NULL`). -/
structure ContextState where
  localRows : List (String × String)
  featuresRows : List String
  deriving DecidableEq, Repr

/-- Embedding of the `features` scaffold creation of `Database.init_database`
(`db.py` lines 164–166): the registry table is created and seeded with
`INSERT OR IGNORE ... SELECT DISTINCT(hash) FROM local`. -/
def init_features (localRows : List (String × String)) : ContextState :=
  { localRows := localRows, featuresRows := (localRows.map Prod.fst).dedup }

/-- Embedding of one row insertion into `local` together with the
`AFTER INSERT` trigger created at `db.py` line 167: `INSERT OR IGNORE INTO
features (hash) VALUES (NEW.hash)` — an already-registered hash is ignored
because `features (hash)` is `UNIQUE`. -/
def insert_local (s : ContextState) (row : String × String) : ContextState :=
  { localRows := s.localRows ++ [row],
    featuresRows :=
      if s.featuresRows.contains row.1 then s.featuresRows
      else s.featuresRows ++ [row.1] }

/-- A sequence of row insertions into `local`, each firing the trigger. -/
def insert_locals (s : ContextState) (rows : List (String × String)) : ContextState :=
  rows.foldl insert_local s

/-! ### Schema discovery (`db.py` lines 105–128) -/

/-- One column as reported by `PRAGMA table_info`: its name and its declared
default value. -/
structure ColumnInfo where
  name : String
  default_value : Option String
  deriving DecidableEq, Repr

/-- One entry of `sqlite_master`: the table or view name, its type (`"table"`
or `"view"`), and its columns. -/
structure TableInfo where
  tbl_name : String
  typ : String
  columns : List ColumnInfo
  deriving DecidableEq, Repr

/-- The feature-info record built at `db.py` lines 124–128. -/
structure FeatureInfo where
  table : String
  column : String
  default : Option String
  virtual : Bool
  context : String
  database : String
  deriving DecidableEq, Repr

/-- Modelled from the spec: `context_from_name` (from the missing
`gbd_tool/util.py`) derives a context, "a namespace label derived from a
table's name by its leading token" — the characters before the first
underscore. -/
def context_from_name (name : String) : String :=
  String.mk (name.toList.takeWhile (fun c => c ≠ '_'))

/-- Assignment into a Python `dict` modelled on an association list: an
existing key is overwritten in place, a new key is appended at the end. -/
def dict_set : List (String × FeatureInfo) → String → FeatureInfo →
    List (String × FeatureInfo)
  | [], k, v => [(k, v)]
  | (k0, v0) :: rest, k, v =>
      if k0 = k then (k, v) :: rest else (k0, v0) :: dict_set rest k v

/-- Embedding of the per-table feature discovery of `Database.extract_infos`
(`db.py` lines 112–128): every column except `hash` yields a feature whose name
is the table name when the column is called `value` and the column name
otherwise, assigned into the shared `feature_infos` dict. -/
def extract_table (dbname : String) (allVirtual : Bool)
    (fi : List (String × FeatureInfo)) (t : TableInfo) :
    List (String × FeatureInfo) :=
  t.columns.foldl
    (fun acc col =>
      if col.name = "hash" then acc
      else
        let fname := if col.name = "value" then t.tbl_name else col.name
        dict_set acc fname
          { table := t.tbl_name, column := col.name, default := col.default_value,
            virtual := (t.typ = "view" || allVirtual),
            context := context_from_name t.tbl_name, database := dbname })
    fi

/-- Embedding of schema discovery over the whole federation: `extract_infos`
runs for every store in attach order (each store given by its name, its
`all_virtual` flag and its schema), all updating the single `feature_infos`
dict, starting from the empty dict. -/
def extract_infos (stores : List (String × Bool × List TableInfo)) :
    List (String × FeatureInfo) :=
  stores.foldl (fun fi s => s.2.2.foldl (extract_table s.1 s.2.1) fi) []

/-! ### The degree-sequence fingerprint (`init.py` lines 143–167) -/

/-- One clause line of a DIMACS-style instance file, as its integer tokens
(the trailing clause terminator included); header (`p`) and comment (`c`)
lines are skipped by the parsing loop at `init.py` line 150 and are therefore
not part of the embedded formula. -/
abbrev ClauseLine := List Int

/-- The literal tokens considered on one clause line: all tokens except the
last one (`line.split()[:-1]` at `init.py` line 151). -/
def line_lits (line : ClauseLine) : List Int := line.dropLast

/-- Embedding of the dict update at `init.py` lines 152–154: the pair of
occurrence counts of variable `abs(num)` (taken as `(0, 0)` when absent, in
which case the new key is appended, Python dicts preserving insertion order) is
bumped in its negative component when `num < 0` and in its positive component
otherwise. -/
def bump_degree : List (Nat × (Nat × Nat)) → Int → List (Nat × (Nat × Nat))
  | [], num => [(num.natAbs, if num < 0 then (0, 1) else (1, 0))]
  | (k, d) :: rest, num =>
      if k = num.natAbs then
        (k, if num < 0 then (d.1, d.2 + 1) else (d.1 + 1, d.2)) :: rest
      else (k, d) :: bump_degree rest num

/-- Embedding of the degree-accumulation loop of `compute_degree_sequence_hash`
(`init.py` lines 146–154): fold over the clause lines and, within each line,
over its literal tokens. -/
def degrees (F : List ClauseLine) : List (Nat × (Nat × Nat)) :=
  F.foldl (fun m line => (line_lits line).foldl bump_degree m) []

/-- The value list of the degrees dict (`list(degrees.values())` at
`init.py` line 156), in insertion order. -/
def degree_list (F : List ClauseLine) : List (Nat × Nat) :=
  (degrees F).map Prod.snd

/-- The sort key of `init.py` line 157: `(t[0]+t[1], abs(t[0]-t[1]))`. -/
def sort_key (t : Nat × Nat) : Nat × Nat :=
  (t.1 + t.2, ((t.1 : Int) - (t.2 : Int)).natAbs)

/-- Python's lexicographic comparison of two key tuples. -/
def pair_le (x y : Nat × Nat) : Prop :=
  x.1 < y.1 ∨ (x.1 = y.1 ∧ x.2 ≤ y.2)

instance : DecidableRel pair_le := fun x y => by
  unfold pair_le; infer_instance

/-- Comparison of two degree pairs by their sort keys, as done by
`degree_list.sort(key=...)`. -/
def key_le (a b : Nat × Nat) : Prop := pair_le (sort_key a) (sort_key b)

instance : DecidableRel key_le := fun a b => by
  unfold key_le; infer_instance

instance : IsTotal (Nat × Nat) pair_le where
  total x y := by unfold pair_le; omega

instance : IsTrans (Nat × Nat) pair_le where
  trans x y z := by unfold pair_le; omega

instance : IsAntisymm (Nat × Nat) pair_le where
  antisymm x y := by
    unfold pair_le
    intro h h'
    have : x.1 = y.1 ∧ x.2 = y.2 := by omega
    exact Prod.ext this.1 this.2

instance : IsTotal (Nat × Nat) key_le where
  total a b := total_of pair_le (sort_key a) (sort_key b)

instance : IsTrans (Nat × Nat) key_le where
  trans a b c h h' := trans_of pair_le (a := sort_key a) h h'

/-- The sorted degree list of `init.py` line 157.  The embedded sort is a
sort by `key_le`; since the digest below reads only the sort key of each
element, any sort by this key produces the same digest stream as Python's
stable `list.sort`. -/
def sorted_degree_list (F : List ClauseLine) : List (Nat × Nat) :=
  List.insertionSort key_le (degree_list F)

/-- The exact character stream fed to the MD5 digest at `init.py` lines
159–163: for every sorted pair, the decimal text of its sum, a space, the
decimal text of its absolute difference, and a space.  The fingerprint is the
MD5 hex digest of this stream, so equal streams give equal fingerprints. -/
def digest_input (F : List ClauseLine) : String :=
  String.join ((sorted_degree_list F).map
    (fun t =>
      toString (t.1 + t.2) ++ " " ++ toString (((t.1 : Int) - (t.2 : Int)).natAbs) ++ " "))

/-- Polarity-preserving relabeling of one literal token under the variable
renaming `π`: the variable number is renamed, the sign is kept. -/
def relabel_lit (π : Nat → Nat) (num : Int) : Int :=
  if num < 0 then -(π num.natAbs : Int) else (π num.natAbs : Int)

/-- An instance file identical to `F` up to the variable renaming `π`. -/
def relabel_formula (π : Nat → Nat) (F : List ClauseLine) : List ClauseLine :=
  F.map (fun line => line.map (relabel_lit π))

/-! ## Theorems -/

/-- Helper: a plain multi-row insert fails with the duplicate-constraint error
as soon as one of the inserted pairs is already present. -/
theorem insert_rows_dup (v : String) :
    ∀ (hs : List String) (t : FTable) (h : String), h ∈ hs → (h, v) ∈ t →
      insert_rows t (hs.map (fun x => (x, v))) = .error .duplicateValue := by
  intro hs
  induction hs with
  | nil => intro t h hmem _; simp at hmem
  | cons h0 hs ih =>
    intro t h hmem hdup
    simp only [List.map_cons, insert_rows]
    split
    · rfl
    · rename_i hc
      have hin : (h0, v) ∉ t := by
        intro habs
        exact hc (List.elem_eq_true_of_mem habs)
      have hne : h ≠ h0 := by
        rintro rfl
        exact hin hdup
      have hmem' : h ∈ hs := by
        rcases List.mem_cons.mp hmem with h1 | h1
        · exact absurd h1 hne
        · exact h1
      have hdup' : (h, v) ∈ t ++ [(h0, v)] := List.mem_append_left _ hdup
      exact ih (t ++ [(h0, v)]) h hmem' hdup'

/-- C8: `is_database` accepts a zero-byte file as valid-but-empty, rejects any
file below the 100-byte header threshold, and otherwise accepts a file exactly
when its leading 16 bytes equal the SQLite format signature; a file on disk
that is rejected is dispatched to the tabular import instead of being
attached. -/
theorem is_database_spec (file : List Nat) :
    (is_database file = true ↔
      file.length = 0 ∨ (100 ≤ file.length ∧ file.take 16 = sqliteSignature)) ∧
    (is_database file = false → startup_action true file = .importTabular) := by
  constructor
  · by_cases h0 : file.length = 0
    · simp [is_database, h0]
    · by_cases hlt : file.length < 100
      · have hdb : is_database file = false := by simp [is_database, h0, hlt]
        rw [hdb]
        simp only [Bool.false_eq_true, false_iff]
        rintro (h | ⟨h, -⟩) <;> omega
      · have h100 : 100 ≤ file.length := by omega
        have hdb : is_database file = (file.take 16 == sqliteSignature) := by
          simp [is_database, h0, hlt, List.take_take]
        rw [hdb]
        constructor
        · intro hb
          exact Or.inr ⟨h100, by simpa using hb⟩
        · rintro (h | ⟨-, h⟩)
          · exact absurd h h0
          · simpa using h
  · intro hfalse
    simp [startup_action, hfalse]

/-- Witness for `is_database_spec` at a concrete undersized file. -/
theorem is_database_spec_witness :
    is_database [1, 2, 3] = false ∧ startup_action true [1, 2, 3] = .importTabular :=
  ⟨by decide, (is_database_spec [1, 2, 3]).2 (by decide)⟩

/-- C9: the tabular import first checks whether a table of the derived name
already exists in the shared in-memory store; if so it returns at once with
the store unchanged, whatever the file content, so the missing-`hash`-column
error can only arise on the first import of a given file name — after any
successful import, re-importing the same file name is an error-free no-op. -/
theorem import_csv_skip_existing (s : MemStore) (f : String) :
    (import_table_name f ∈ s.tables.map Prod.fst →
      ∀ c : CSVFile, import_csv s f c = .ok s) ∧
    (∀ (c : CSVFile) (s1 : MemStore), import_csv s f c = .ok s1 →
      ∀ c2 : CSVFile, import_csv s1 f c2 = .ok s1) := by
  constructor
  · intro hc c
    simp [import_csv, hc]
  · intro c s1 hok c2
    by_cases hc : import_table_name f ∈ s.tables.map Prod.fst
    · simp [import_csv, hc] at hok
      subst hok
      simp [import_csv, hc]
    · simp only [import_csv] at hok
      rw [if_neg (by simpa using hc)] at hok
      split at hok
      · exact absurd hok (by simp)
      · have hs1 : s1 = { tables := s.tables ++ [(import_table_name f, c.rows)] } := by
          injection hok with h
          exact h.symm
        subst hs1
        have hmem : import_table_name f ∈
            ({ tables := s.tables ++ [(import_table_name f, c.rows)] } : MemStore).tables.map
              Prod.fst := by
          simp
        simp [import_csv, hmem]

/-- Witness for `import_csv_skip_existing`: importing a file whose derived
table name is already present returns the store unchanged. -/
theorem import_csv_skip_existing_witness :
    import_csv ⟨[(import_table_name "t.csv", [])]⟩ "t.csv" ⟨["a"], []⟩
      = .ok ⟨[(import_table_name "t.csv", [])]⟩ :=
  (import_csv_skip_existing ⟨[(import_table_name "t.csv", [])]⟩ "t.csv").1 (by simp)
    ⟨["a"], []⟩

/-- C9 counterexample: a repeated import of the same file name can still raise
the missing-`hash`-column error — a failed first import creates no table, so
the identical second import reads the file again and raises again. -/
theorem import_csv_repeat_error_cex :
    import_csv ⟨[]⟩ "t.csv" ⟨["a"], []⟩ = .error .missingHashColumn ∧
    import_csv ⟨[]⟩ "t.csv" ⟨["a"], []⟩ = .error .missingHashColumn := by
  constructor <;> rfl

/-- C10: for a feature whose default is `None`, a forced insert behaves exactly
like a plain insert — `REPLACE` is chosen only when `force` is set *and* the
default is truthy — so a forced insert on a no-default feature still fails on
an already-present `(identity, value)` pair. -/
theorem insert_force_nodefault (default : Option String) (hdef : default = none)
    (v : String) (hs : List String) (t : FTable) :
    db_insert default v hs true t = db_insert default v hs false t ∧
    (∀ h ∈ hs, (h, v) ∈ t →
      db_insert default v hs true t = Except.error DBError.duplicateValue) := by
  subst hdef
  constructor
  · simp [db_insert, py_truthy]
  · intro h hmem hdup
    simpa [db_insert, py_truthy] using insert_rows_dup v hs t h hmem hdup

/-- Witness for `insert_force_nodefault` at a concrete duplicate pair. -/
theorem insert_force_nodefault_witness :
    db_insert none "v" ["a"] true [("a", "v")] = Except.error DBError.duplicateValue :=
  (insert_force_nodefault none rfl "v" ["a"] [("a", "v")]).2 "a" (by decide) (by decide)

/-- C2: on a feature table created without a default (`UNIQUE(hash, value)`),
re-inserting an existing `(identity, value)` pair fails with the
duplicate-constraint error, while inserting a second, distinct value for the
same identity succeeds; afterwards both pairs persist and querying by either
value returns the identity. -/
theorem nodefault_insert_multivalue (t : FTable) (h v1 v2 : String)
    (h1 : (h, v1) ∈ t) (hne : v2 ≠ v1) (h2 : (h, v2) ∉ t) :
    db_insert none v1 [h] false t = .error .duplicateValue ∧
    ∃ t', db_insert none v2 [h] false t = .ok t' ∧
      (h, v1) ∈ t' ∧ (h, v2) ∈ t' ∧ h ∈ query_value t' v1 ∧ h ∈ query_value t' v2 := by
  constructor
  · simpa [db_insert, py_truthy] using insert_rows_dup v1 [h] t h (by simp) h1
  · refine ⟨t ++ [(h, v2)], ?_, List.mem_append_left _ h1, by simp, ?_, ?_⟩
    · simp only [db_insert, py_truthy, Bool.and_false, Bool.false_eq_true, if_false,
        List.map_cons, List.map_nil, insert_rows]
      rw [if_neg (by simpa using h2)]
    · refine List.mem_map.mpr ⟨(h, v1), ?_, rfl⟩
      exact List.mem_filter.mpr ⟨List.mem_append_left _ h1, by simp⟩
    · refine List.mem_map.mpr ⟨(h, v2), ?_, rfl⟩
      exact List.mem_filter.mpr ⟨by simp, by simp⟩

/-- Witness for `nodefault_insert_multivalue` at a concrete table. -/
theorem nodefault_insert_multivalue_witness :
    db_insert none "x" ["a"] false [("a", "x")] = .error .duplicateValue :=
  (nodefault_insert_multivalue [("a", "x")] "a" "x" "y" (by decide) (by decide)
    (by decide)).1

/-- C3 counterexample: re-creating a feature that has a default value is *not*
a no-op — the second `ALTER TABLE features ADD` fails with a duplicate-column
error even though the first call succeeded with the same name and shape. -/
theorem create_feature_default_not_idempotent_cex :
    create_feature ⟨[], []⟩ "family" (some "empty") = .ok ⟨[], ["family"]⟩ ∧
    create_feature ⟨[], ["family"]⟩ "family" (some "empty")
      = .error .duplicateColumn := by
  constructor <;> rfl

/-- C3 (amended): `create_feature` is idempotent only for the no-default shape
(`CREATE TABLE IF NOT EXISTS`); re-creating a feature that was created with a
default value raises a duplicate-column error instead of being a no-op. -/
theorem create_feature_idempotent_amended (s s1 : Schema) (name : String) :
    (create_feature s name none = .ok s1 → create_feature s1 name none = .ok s1) ∧
    (∀ d : String, create_feature s name (some d) = .ok s1 →
      create_feature s1 name (some d) = .error .duplicateColumn) := by
  constructor
  · intro hok
    simp only [create_feature] at hok ⊢
    split at hok
    · rename_i hc
      injection hok with hs1
      subst hs1
      have hc' : name ∈ s.dedicatedTables := by simpa using hc
      simp [hc']
    · injection hok with hs1
      subst hs1
      have hmem : name ∈ s.dedicatedTables ++ [name] := by simp
      simp [hmem]
  · intro d hok
    simp only [create_feature] at hok ⊢
    split at hok
    · exact absurd hok (by simp)
    · injection hok with hs1
      subst hs1
      have hmem : name ∈ s.registryColumns ++ [name] := by simp
      simp [hmem]

/-- Witness for `create_feature_idempotent_amended` at concrete schemas. -/
theorem create_feature_idempotent_amended_witness :
    create_feature ⟨["f"], []⟩ "f" none = .ok ⟨["f"], []⟩ ∧
    create_feature ⟨[], ["g"]⟩ "g" (some "0") = .error .duplicateColumn :=
  ⟨(create_feature_idempotent_amended ⟨[], []⟩ ⟨["f"], []⟩ "f").1 (by rfl),
   (create_feature_idempotent_amended ⟨[], []⟩ ⟨[], ["g"]⟩ "g").2 "0" (by rfl)⟩

/-- Helper: the hash-keyed `REPLACE` loop never loses a registered hash. -/
theorem replace_hash_keys_sub (d : String) :
    ∀ (hs : List String) (t : RegTable) (k : String),
      k ∈ t.map Prod.fst →
      k ∈ (replace_rows_unique_hash t (hs.map (fun x => (x, d)))).map Prod.fst := by
  intro hs
  induction hs with
  | nil => intro t k hk; simpa [replace_rows_unique_hash] using hk
  | cons h0 hs ih =>
    intro t k hk
    simp only [List.map_cons, replace_rows_unique_hash]
    apply ih
    by_cases hkh : k = h0
    · subst hkh; simp
    · rcases List.mem_map.mp hk with ⟨r, hr, rfl⟩
      refine List.mem_map.mpr
        ⟨r, List.mem_append_left _ (List.mem_filter.mpr ⟨hr, ?_⟩), rfl⟩
      simpa using hkh

/-- Helper: the hash-keyed `REPLACE` loop keeps untouched rows unchanged. -/
theorem replace_hash_keep (d : String) :
    ∀ (hs : List String) (t : RegTable) (r : String × String),
      r ∈ t → r.1 ∉ hs →
      r ∈ replace_rows_unique_hash t (hs.map (fun x => (x, d))) := by
  intro hs
  induction hs with
  | nil => intro t r hr _; simpa [replace_rows_unique_hash] using hr
  | cons h0 hs ih =>
    intro t r hr hn
    simp only [List.map_cons, replace_rows_unique_hash]
    apply ih
    · refine List.mem_append_left _ (List.mem_filter.mpr ⟨hr, ?_⟩)
      have hne : r.1 ≠ h0 := fun habs => hn (by simp [habs])
      simpa using hne
    · intro habs
      exact hn (List.mem_cons_of_mem _ habs)

/-- Helper: after the hash-keyed `REPLACE` loop every overwritten hash holds a
row with the written value. -/
theorem replace_hash_mem (d : String) :
    ∀ (hs : List String) (t : RegTable) (h : String), h ∈ hs →
      (h, d) ∈ replace_rows_unique_hash t (hs.map (fun x => (x, d))) := by
  intro hs
  induction hs with
  | nil => intro t h hh; simp at hh
  | cons h0 hs ih =>
    intro t h hh
    simp only [List.map_cons, replace_rows_unique_hash]
    rcases List.mem_cons.mp hh with rfl | hh'
    · by_cases hmem : h ∈ hs
      · exact ih _ _ hmem
      · exact replace_hash_keep d hs _ (h, d) (by simp) hmem
    · exact ih _ _ hh'

/-- Helper: the hash-keyed `REPLACE` loop preserves "every row of key `k` holds
value `d`". -/
theorem replace_hash_value_const (d : String) :
    ∀ (hs : List String) (t : RegTable) (k : String),
      (∀ v, (k, v) ∈ t → v = d) →
      ∀ v, (k, v) ∈ replace_rows_unique_hash t (hs.map (fun x => (x, d))) → v = d := by
  intro hs
  induction hs with
  | nil =>
    intro t k hk v hv
    exact hk v (by simpa [replace_rows_unique_hash] using hv)
  | cons h0 hs ih =>
    intro t k hk v hv
    simp only [List.map_cons, replace_rows_unique_hash] at hv
    refine ih _ k ?_ v hv
    intro v' hv'
    rcases List.mem_append.mp hv' with hmemf | hmem1
    · exact hk v' (List.mem_filter.mp hmemf).1
    · have : k = h0 ∧ v' = d := by simpa using hmem1
      exact this.2

/-- Helper: after the hash-keyed `REPLACE` loop every overwritten hash holds
only the written value. -/
theorem replace_hash_overwrites (d : String) :
    ∀ (hs : List String) (t : RegTable) (h : String), h ∈ hs →
      ∀ v, (h, v) ∈ replace_rows_unique_hash t (hs.map (fun x => (x, d))) → v = d := by
  intro hs
  induction hs with
  | nil => intro t h hh; simp at hh
  | cons h0 hs ih =>
    intro t h hh v hv
    simp only [List.map_cons, replace_rows_unique_hash] at hv
    rcases List.mem_cons.mp hh with rfl | hh'
    · by_cases hmem : h ∈ hs
      · exact ih _ h hmem v hv
      · refine replace_hash_value_const d hs _ h ?_ v hv
        intro v' hv'
        rcases List.mem_append.mp hv' with hf | h1
        · have hpred := (List.mem_filter.mp hf).2
          simp at hpred
        · have : h = h ∧ v' = d := by simpa using h1
          exact this.2
    · exact ih _ h hh' v hv

/-- C4: identity-scoped deletion on a feature with a (non-empty) default
overwrites the given identities' values with the default and removes no row,
leaving other identities' rows unchanged; on a feature without a default it
genuinely removes every row whose hash is among the given identities, across
all that identity's values. -/
theorem delete_hashes_spec (d : String) (hd : d ≠ "")
    (reg : RegTable) (t : FTable) (hashes : List String) :
    (∃ reg', delete_hashes_default d hashes reg = .ok reg' ∧
      (∀ k ∈ reg.map Prod.fst, k ∈ reg'.map Prod.fst) ∧
      (∀ h ∈ hashes, (h, d) ∈ reg') ∧
      (∀ h ∈ hashes, ∀ v, (h, v) ∈ reg' → v = d) ∧
      (∀ r ∈ reg, r.1 ∉ hashes → r ∈ reg')) ∧
    (∀ r, r ∈ delete_hashes_nodefault t hashes ↔ r ∈ t ∧ r.1 ∉ hashes) := by
  constructor
  · have htr : py_truthy (some d) = true := by
      have hfalse : d.isEmpty = false := by
        by_cases hEq : d.isEmpty = true
        · exact absurd ((String.isEmpty_iff d).mp hEq) hd
        · simpa using hEq
      simp [py_truthy, hfalse]
    refine ⟨replace_rows_unique_hash reg (hashes.map (fun x => (x, d))), ?_,
      fun k hk => replace_hash_keys_sub d hashes reg k hk,
      fun h hh => replace_hash_mem d hashes reg h hh,
      fun h hh v hv => replace_hash_overwrites d hashes reg h hh v hv,
      fun r hr hn => replace_hash_keep d hashes reg r hr hn⟩
    simp [delete_hashes_default, db_insert_registry, htr]
  · intro r
    simp [delete_hashes_nodefault, List.mem_filter]

/-- Witness for `delete_hashes_spec`: a concrete no-default deletion instance. -/
theorem delete_hashes_spec_witness :
    ("a", "v") ∈ delete_hashes_nodefault [("a", "v")] ["b"] ↔
      ("a", "v") ∈ ([("a", "v")] : FTable) ∧ "a" ∉ (["b"] : List String) :=
  (delete_hashes_spec "empty" (by decide) [("a", "old")] [("a", "v")] ["b"]).2 ("a", "v")

/-- Helper: the trigger-augmented insertion into `local` preserves both
distinctness of the registry and coverage of all local hashes. -/
theorem registry_invariant_preserved :
    ∀ (rows : List (String × String)) (s : ContextState),
      s.featuresRows.Nodup →
      (∀ k ∈ s.localRows.map Prod.fst, k ∈ s.featuresRows) →
      ((insert_locals s rows).featuresRows.Nodup ∧
        ∀ k ∈ (insert_locals s rows).localRows.map Prod.fst,
          k ∈ (insert_locals s rows).featuresRows) := by
  intro rows
  induction rows with
  | nil => intro s h1 h2; exact ⟨h1, h2⟩
  | cons r rows ih =>
    intro s h1 h2
    have hstep1 : (insert_local s r).featuresRows.Nodup := by
      simp only [insert_local]
      by_cases hc : s.featuresRows.contains r.1 = true
      · rw [if_pos hc]
        exact h1
      · rw [if_neg hc]
        have hnm : r.1 ∉ s.featuresRows := by simpa using hc
        simp [List.nodup_append, h1, hnm]
    have hstep2 : ∀ k ∈ (insert_local s r).localRows.map Prod.fst,
        k ∈ (insert_local s r).featuresRows := by
      intro k hk
      simp only [insert_local, List.map_append, List.map_cons, List.map_nil,
        List.mem_append, List.mem_singleton] at hk
      simp only [insert_local]
      by_cases hc : s.featuresRows.contains r.1 = true
      · have hcm : r.1 ∈ s.featuresRows := by simpa using hc
        rw [if_pos hc]
        rcases hk with hk | hk
        · exact h2 k hk
        · exact hk ▸ hcm
      · rw [if_neg hc]
        rcases hk with hk | hk
        · exact List.mem_append_left _ (h2 k hk)
        · exact List.mem_append_right _ (by simp [hk])
    exact ih (insert_local s r) hstep1 hstep2

/-- C1: after the initialization scaffold exists (registry seeded from the
distinct hashes of `local`, trigger in place), any sequence of row insertions
into `local` preserves the identity-registry invariant: every hash occurring
in `local` occurs exactly once as a row of the context's `features` table. -/
theorem local_insert_preserves_identity_registry
    (l rows : List (String × String)) (h : String)
    (hmem : h ∈ (insert_locals (init_features l) rows).localRows.map Prod.fst) :
    (insert_locals (init_features l) rows).featuresRows.count h = 1 := by
  have hinit1 : (init_features l).featuresRows.Nodup := List.nodup_dedup _
  have hinit2 : ∀ k ∈ (init_features l).localRows.map Prod.fst,
      k ∈ (init_features l).featuresRows := by
    intro k hk
    simpa [init_features, List.mem_dedup] using hk
  obtain ⟨hnd, hsub⟩ := registry_invariant_preserved rows (init_features l) hinit1 hinit2
  exact List.count_eq_one_of_mem hnd (hsub h hmem)

/-- Witness for `local_insert_preserves_identity_registry`: the hash `"a"`,
present in the seed and re-inserted later, still has exactly one registry row. -/
theorem local_insert_preserves_identity_registry_witness :
    (insert_locals (init_features [("a", "p")]) [("b", "q"), ("a", "r")]).featuresRows.count
      "a" = 1 :=
  local_insert_preserves_identity_registry [("a", "p")] [("b", "q"), ("a", "r")] "a"
    (by decide)

/-- C5 (failing input): for a feature with a default, `delete_values` builds
the statement `UPDATE TABLE features SET family = empty WHERE value IN ('x')`,
which is not a well-formed `UPDATE` statement — `TABLE` is a reserved keyword
in target position — so the embedded engine rejects it and no overwrite
happens. -/
theorem delete_values_default_stmt_malformed :
    delete_values_default_stmt "features" "family" "empty" ["x"]
      = "UPDATE TABLE features SET family = empty WHERE value IN ('x')" ∧
    update_stmt_wellformed (delete_values_default_stmt "features" "family" "empty" ["x"])
      = false := by
  constructor <;> decide

/-- Helper: the keys of a dict after an assignment — unchanged when the key
was present, the key appended when it was new. -/
theorem dict_set_keys (m : List (String × FeatureInfo)) (k : String) (v : FeatureInfo) :
    (dict_set m k v).map Prod.fst =
      if k ∈ m.map Prod.fst then m.map Prod.fst else m.map Prod.fst ++ [k] := by
  induction m with
  | nil => simp [dict_set]
  | cons p m ih =>
    obtain ⟨k0, v0⟩ := p
    by_cases hp : k0 = k
    · subst hp
      simp [dict_set]
    · simp only [dict_set, hp, if_false, List.map_cons]
      by_cases hm : k ∈ m.map Prod.fst
      · rw [ih, if_pos hm, if_pos (List.mem_cons_of_mem _ hm)]
      · have hnc : ¬(k ∈ k0 :: m.map Prod.fst) := by
          simp only [List.mem_cons]
          rintro (rfl | hkm)
          · exact hp rfl
          · exact hm hkm
        rw [ih, if_neg hm, if_neg hnc]
        rfl

/-- Helper: a dict assignment preserves distinctness of the keys. -/
theorem dict_set_keys_nodup (m : List (String × FeatureInfo)) (k : String)
    (v : FeatureInfo) (h : (m.map Prod.fst).Nodup) :
    ((dict_set m k v).map Prod.fst).Nodup := by
  rw [dict_set_keys]
  split
  · exact h
  · rename_i hk
    simp [List.nodup_append, h, hk]

/-- Helper: discovering one table's features preserves key distinctness. -/
theorem extract_table_keys_nodup (db : String) (av : Bool) (t : TableInfo) :
    ∀ fi : List (String × FeatureInfo), (fi.map Prod.fst).Nodup →
      ((extract_table db av fi t).map Prod.fst).Nodup := by
  unfold extract_table
  generalize t.columns = cols
  induction cols with
  | nil => intro fi h; simpa using h
  | cons c cols ih =>
    intro fi h
    simp only [List.foldl_cons]
    apply ih
    by_cases hc : c.name = "hash"
    · simpa [hc] using h
    · simp only [hc, if_false]
      exact dict_set_keys_nodup _ _ _ h

/-- Helper: full federation discovery produces a dict with distinct keys. -/
theorem extract_infos_keys_nodup (stores : List (String × Bool × List TableInfo)) :
    ((extract_infos stores).map Prod.fst).Nodup := by
  unfold extract_infos
  have htab : ∀ (nm : String) (av : Bool) (ts : List TableInfo)
      (fi : List (String × FeatureInfo)), (fi.map Prod.fst).Nodup →
      ((ts.foldl (extract_table nm av) fi).map Prod.fst).Nodup := by
    intro nm av ts
    induction ts with
    | nil => intro fi h; simpa using h
    | cons t ts iht =>
      intro fi h
      simp only [List.foldl_cons]
      exact iht _ (extract_table_keys_nodup nm av t fi h)
  have hall : ∀ (ss : List (String × Bool × List TableInfo))
      (fi : List (String × FeatureInfo)), (fi.map Prod.fst).Nodup →
      ((ss.foldl (fun fi s => s.2.2.foldl (extract_table s.1 s.2.1) fi) fi).map
        Prod.fst).Nodup := by
    intro ss
    induction ss with
    | nil => intro fi h; simpa using h
    | cons s ss ihs =>
      intro fi h
      simp only [List.foldl_cons]
      exact ihs _ (htab s.1 s.2.1 s.2.2 fi h)
  exact hall stores [] (by simp)

/-- Helper: an association list with distinct keys is functional. -/
theorem assoc_nodup_functional :
    ∀ (l : List (String × FeatureInfo)), (l.map Prod.fst).Nodup →
      ∀ (k : String) (v1 v2 : FeatureInfo), (k, v1) ∈ l → (k, v2) ∈ l → v1 = v2 := by
  intro l
  induction l with
  | nil => intro _ k v1 v2 h1; simp at h1
  | cons p l ih =>
    intro hnd k v1 v2 h1 h2
    obtain ⟨k0, v0⟩ := p
    simp only [List.map_cons, List.nodup_cons] at hnd
    rcases List.mem_cons.mp h1 with e1 | m1 <;> rcases List.mem_cons.mp h2 with e2 | m2
    · rw [Prod.mk.injEq] at e1 e2
      exact e1.2.trans e2.2.symm
    · rw [Prod.mk.injEq] at e1
      exact absurd (e1.1 ▸ List.mem_map.mpr ⟨(k, v2), m2, rfl⟩) hnd.1
    · rw [Prod.mk.injEq] at e2
      exact absurd (e2.1 ▸ List.mem_map.mpr ⟨(k, v1), m1, rfl⟩) hnd.1
    · exact ih hnd.2 k v1 v2 m1 m2

/-- C7: after schema discovery has run over every attached store, each feature
name resolves to exactly one feature-info record (store, table, column, …) —
the `feature_infos` dict, re-derived purely from the stores' schemas, maps
every name to a single entry. -/
theorem extract_infos_feature_names_unique
    (stores : List (String × Bool × List TableInfo)) (name : String)
    (i1 i2 : FeatureInfo)
    (h1 : (name, i1) ∈ extract_infos stores) (h2 : (name, i2) ∈ extract_infos stores) :
    i1 = i2 :=
  assoc_nodup_functional (extract_infos stores) (extract_infos_keys_nodup stores)
    name i1 i2 h1 h2

/-- Witness for `extract_infos_feature_names_unique` on a concrete one-store
schema. -/
theorem extract_infos_feature_names_unique_witness :
    ({ table := "meta", column := "family", default := some "empty", virtual := false,
       context := "meta", database := "db1" } : FeatureInfo) =
    { table := "meta", column := "family", default := some "empty", virtual := false,
      context := "meta", database := "db1" } :=
  extract_infos_feature_names_unique
    [("db1", (false, [⟨"meta", "table", [⟨"hash", none⟩, ⟨"family", some "empty"⟩]⟩]))]
    "family" _ _ (by decide) (by decide)

/-- Helper: relabeling a literal keeps its variable number up to `π`. -/
theorem relabel_lit_natAbs (π : Nat → Nat) (num : Int) :
    (relabel_lit π num).natAbs = π num.natAbs := by
  unfold relabel_lit
  split <;> simp

/-- Helper: relabeling a literal preserves its polarity as long as `π` maps
nonzero variables to nonzero variables. -/
theorem relabel_lit_neg_iff (π : Nat → Nat) (hnz : ∀ v, v ≠ 0 → π v ≠ 0)
    (num : Int) : (relabel_lit π num < 0) ↔ (num < 0) := by
  unfold relabel_lit
  split
  · rename_i hneg
    have hne : num ≠ 0 := by omega
    have h1 : num.natAbs ≠ 0 := by simpa [Int.natAbs_eq_zero] using hne
    have h2 : π num.natAbs ≠ 0 := hnz _ h1
    constructor
    · intro _; exact hneg
    · intro _; omega
  · rename_i hpos
    have h0 : (0 : Int) ≤ (π num.natAbs : Int) := Int.natCast_nonneg _
    constructor
    · intro habs; omega
    · intro habs; exact absurd habs hpos

/-- Helper: one step of the degree accumulation commutes with an injective
variable relabeling of the keys. -/
theorem bump_degree_map (π : Nat → Nat) (hinj : Function.Injective π)
    (hnz : ∀ v, v ≠ 0 → π v ≠ 0) (num : Int) :
    ∀ m : List (Nat × (Nat × Nat)),
      bump_degree (m.map (fun e => (π e.1, e.2))) (relabel_lit π num)
        = (bump_degree m num).map (fun e => (π e.1, e.2)) := by
  intro m
  induction m with
  | nil =>
    simp only [List.map_nil, bump_degree, List.map_cons]
    rw [relabel_lit_natAbs]
    simp [relabel_lit_neg_iff π hnz num]
  | cons p m ih =>
    obtain ⟨k, dgr⟩ := p
    simp only [List.map_cons, bump_degree]
    by_cases hk : k = num.natAbs
    · subst hk
      rw [if_pos (by rw [relabel_lit_natAbs]), if_pos rfl]
      simp [relabel_lit_neg_iff π hnz num]
    · rw [if_neg ?hne, if_neg hk]
      · simp [ih]
      case hne =>
        rw [relabel_lit_natAbs]
        exact fun habs => hk (hinj habs)

/-- Helper: the per-line degree accumulation commutes with relabeling. -/
theorem degrees_line_map (π : Nat → Nat) (hinj : Function.Injective π)
    (hnz : ∀ v, v ≠ 0 → π v ≠ 0) :
    ∀ (lits : List Int) (m : List (Nat × (Nat × Nat))),
      (lits.map (relabel_lit π)).foldl bump_degree (m.map (fun e => (π e.1, e.2)))
        = (lits.foldl bump_degree m).map (fun e => (π e.1, e.2)) := by
  intro lits
  induction lits with
  | nil => intro m; simp
  | cons num lits ih =>
    intro m
    simp only [List.map_cons, List.foldl_cons]
    rw [bump_degree_map π hinj hnz num m]
    exact ih (bump_degree m num)

/-- Helper: the full degree accumulation of a relabeled formula is the degree
accumulation of the original with all keys renamed by `π`. -/
theorem degrees_relabel (π : Nat → Nat) (hinj : Function.Injective π)
    (hnz : ∀ v, v ≠ 0 → π v ≠ 0) (F : List ClauseLine) :
    degrees (relabel_formula π F) = (degrees F).map (fun e => (π e.1, e.2)) := by
  have hgen : ∀ (G : List ClauseLine) (m : List (Nat × (Nat × Nat))),
      (G.map (fun line => line.map (relabel_lit π))).foldl
        (fun m line => (line_lits line).foldl bump_degree m)
        (m.map (fun e => (π e.1, e.2)))
      = (G.foldl (fun m line => (line_lits line).foldl bump_degree m) m).map
          (fun e => (π e.1, e.2)) := by
    intro G
    induction G with
    | nil => intro m; simp
    | cons line G ihG =>
      intro m
      simp only [List.map_cons, List.foldl_cons]
      have hline : line_lits (line.map (relabel_lit π))
          = (line_lits line).map (relabel_lit π) := by
        simp [line_lits, List.map_dropLast]
      rw [hline, degrees_line_map π hinj hnz (line_lits line) m]
      exact ihG ((line_lits line).foldl bump_degree m)
  simpa [degrees, relabel_formula] using hgen F []

/-- Helper: the degree-pair list is unchanged by an injective,
nonzero-preserving variable relabeling (the dict has the same values in the
same insertion order, only its keys are renamed). -/
theorem degree_list_relabel (π : Nat → Nat) (hinj : Function.Injective π)
    (hnz : ∀ v, v ≠ 0 → π v ≠ 0) (F : List ClauseLine) :
    degree_list (relabel_formula π F) = degree_list F := by
  unfold degree_list
  rw [degrees_relabel π hinj hnz F, List.map_map]
  rfl

/-- Helper: mapping the sorted degree list to its sort keys yields a list
sorted under the lexicographic key order. -/
theorem sorted_map_sort_key (l : List (Nat × Nat)) :
    ((List.insertionSort key_le l).map sort_key).Sorted pair_le :=
  List.Pairwise.map sort_key (fun _ _ h => h) (List.sorted_insertionSort key_le l)

/-- Helper: the digest stream depends only on the multiset of degree pairs —
two permuted degree lists produce the same stream. -/
theorem digest_stream_eq_of_perm (l1 l2 : List (Nat × Nat)) (h : l1.Perm l2) :
    String.join ((List.insertionSort key_le l1).map
      (fun t => toString (t.1 + t.2) ++ " " ++
        toString (((t.1 : Int) - (t.2 : Int)).natAbs) ++ " "))
    = String.join ((List.insertionSort key_le l2).map
      (fun t => toString (t.1 + t.2) ++ " " ++
        toString (((t.1 : Int) - (t.2 : Int)).natAbs) ++ " ")) := by
  have hkeys : (List.insertionSort key_le l1).map sort_key
      = (List.insertionSort key_le l2).map sort_key := by
    exact List.eq_of_perm_of_sorted (r := pair_le)
      ((((List.perm_insertionSort key_le l1).map sort_key).trans
        (h.map sort_key)).trans ((List.perm_insertionSort key_le l2).map sort_key).symm)
      (sorted_map_sort_key l1) (sorted_map_sort_key l2)
  have hfac : ∀ s : List (Nat × Nat),
      s.map (fun t => toString (t.1 + t.2) ++ " " ++
        toString (((t.1 : Int) - (t.2 : Int)).natAbs) ++ " ")
      = (s.map sort_key).map (fun p => toString p.1 ++ " " ++ toString p.2 ++ " ") := by
    intro s
    rw [List.map_map]
    rfl
  rw [hfac, hfac, hkeys]

/-- C6: two instance files identical up to a permutation of variable numbering
(injective, nonzero-preserving) with polarity kept produce the same
fingerprint digest stream; moreover the digest stream is a function only of
the multiset of per-variable occurrence pairs, sorted ascending by the key
(sum, absolute difference). -/
theorem degree_sequence_hash_invariance (π : Nat → Nat) (F : List ClauseLine)
    (hinj : Function.Injective π) (hnz : ∀ v, v ≠ 0 → π v ≠ 0) :
    digest_input (relabel_formula π F) = digest_input F ∧
    ∀ F1 F2 : List ClauseLine, (degree_list F1).Perm (degree_list F2) →
      digest_input F1 = digest_input F2 := by
  constructor
  · unfold digest_input sorted_degree_list
    rw [degree_list_relabel π hinj hnz F]
  · intro F1 F2 hperm
    unfold digest_input sorted_degree_list
    exact digest_stream_eq_of_perm _ _ hperm

/-- Witness for `degree_sequence_hash_invariance`: renaming every variable
`v ↦ v + 1` in a concrete clause leaves the digest stream unchanged. -/
theorem degree_sequence_hash_invariance_witness :
    digest_input (relabel_formula Nat.succ [[1, -2, 0]]) = digest_input [[1, -2, 0]] :=
  (degree_sequence_hash_invariance Nat.succ [[1, -2, 0]] Nat.succ_injective
    (fun v _ => Nat.succ_ne_zero v)).1

end GBD
